import Mathlib

/-! # Deferred-registration protocol of the implementors shard

A shallow embedding of `src/implementors/core/marker/trait.Sync.js`.
An emitter script builds a local identifier-to-descriptions mapping
(`implementors`) and dispatches it: if `window.register_implementors`
exists it is called with the mapping, otherwise the mapping is assigned
to `window.pending_implementors`.

The Sink side (`window.register_implementors`, its registry, and the
drain performed at Sink initialization) is not part of `src/` — only the
emitter is — so those parts are modelled from the spec and are marked as
such in their doc comments. -/

/-- An ordered list of opaque implementor description strings. -/
abbrev Descriptions := List String

/-- An emitter's local mapping: identifier-to-descriptions pairs in
insertion order (the JS object literal built on lines 1-2 of the source). -/
abbrev Implementors := List (String × Descriptions)

/-- The Sink's registry: identifier-to-descriptions pairs. -/
abbrev Registry := List (String × Descriptions)

/-- Modelled from the spec: the Sink's single-fragment insert (the Sink is
missing from `src/`).  Per spec §3, re-registration under the same
identifier overwrites rather than merges: any previous entry for the
identifier is dropped and the new fragment appended. -/
def insertReg (reg : Registry) (kv : String × Descriptions) : Registry :=
  reg.filter (fun p => p.1 != kv.1) ++ [kv]

/-- Modelled from the spec: the Sink applies a registered mapping by
inserting its fragments in order (spec §4.3; the Sink is missing from
`src/`). -/
def applyMapping (reg : Registry) (m : Implementors) : Registry :=
  m.foldl insertReg reg

/-- The process-wide (window) state.  `ready` is the presence of
`window.register_implementors`; `registry` and `callLog` belong to the
spec-modelled Sink (`callLog` records each invocation of the entry point,
in order); `pending_implementors` is the pending slot assigned on line 7
of the source; `others` stands for every other window binding. -/
@[ext]
structure WindowState where
  ready : Bool
  registry : Registry
  callLog : List Implementors
  pending_implementors : Option Implementors
  others : String → Option String

/-- The registration dispatch of the source (lines 4-8): if
`window.register_implementors` exists, call it with the emitter's whole
mapping; otherwise assign the mapping to `window.pending_implementors`. -/
def registerStep (w : WindowState) (implementors : Implementors) : WindowState :=
  if w.ready then
    { w with registry := applyMapping w.registry implementors,
             callLog := w.callLog ++ [implementors] }
  else
    { w with pending_implementors := some implementors }

/-- Invoking the Sink entry point, with explicit failure mirroring JS
semantics: calling `window.register_implementors` while it is absent
throws a TypeError. -/
def callSink (w : WindowState) (implementors : Implementors) :
    Except String WindowState :=
  if w.ready then
    Except.ok { w with registry := applyMapping w.registry implementors,
                       callLog := w.callLog ++ [implementors] }
  else
    Except.error "TypeError: window.register_implementors is not a function"

/-- The registration dispatch with explicit failure: the source guards the
call with the presence check (line 4), so the absent case only assigns the
pending slot and the call is only made when it cannot throw. -/
def registerStepE (w : WindowState) (implementors : Implementors) :
    Except String WindowState :=
  if w.ready then
    callSink w implementors
  else
    Except.ok { w with pending_implementors := some implementors }

/-- Modelled from the spec: Sink initialization (run by hosting code, not
in `src/`) flips the state to READY, drains the pending slot, applies it,
then discards it (spec §4.3). -/
def sinkInit (w : WindowState) : WindowState :=
  match w.pending_implementors with
  | some m =>
      { w with ready := true,
               registry := applyMapping w.registry m,
               callLog := w.callLog ++ [m],
               pending_implementors := none }
  | none => { w with ready := true }

/-- One schedulable event: an emitter running its registration, or the
Sink initializing. -/
inductive Event where
  | reg (m : Implementors)
  | init
deriving DecidableEq

/-- Execute one event. -/
def step (w : WindowState) : Event → WindowState
  | Event.reg m => registerStep w m
  | Event.init => sinkInit w

/-- The window before any script has run: no entry point, empty registry,
empty pending slot. -/
def initialState : WindowState :=
  { ready := false, registry := [], callLog := [],
    pending_implementors := none, others := fun _ => none }

/-- A window in state READY with nothing registered: the Sink initialized
before any emitter ran. -/
def readyState : WindowState :=
  sinkInit initialState

/-- Run a trace of events from a given window state. -/
def runFrom (w : WindowState) (t : List Event) : WindowState :=
  t.foldl step w

/-- Run a trace of events from the initial window. -/
def run (t : List Event) : WindowState :=
  runFrom initialState t

/-- The mappings registered along a trace, in order. -/
def traceMappings (t : List Event) : List Implementors :=
  t.filterMap (fun e => match e with | Event.reg m => some m | Event.init => none)

/-- Test mapping of a first emitter (spec §8 scenario). -/
def mA : Implementors := [("pkgA", ["implA1"])]

/-- Test mapping of a second emitter (spec §8 scenario). -/
def mB : Implementors := [("pkgB", ["implB1"])]

/-- Test mapping of a third emitter (spec §8 scenario). -/
def mC : Implementors := [("pkgC", ["implC1"])]

/-! ## Basic step lemmas -/

theorem registerStep_ready (w : WindowState) (m : Implementors) :
    (registerStep w m).ready = w.ready := by
  unfold registerStep
  split <;> rfl

theorem registerStep_others (w : WindowState) (m : Implementors) :
    (registerStep w m).others = w.others := by
  unfold registerStep
  split <;> rfl

theorem registerStep_of_ready (w : WindowState) (m : Implementors)
    (h : w.ready = true) :
    registerStep w m =
      { w with registry := applyMapping w.registry m,
               callLog := w.callLog ++ [m] } := by
  simp [registerStep, h]

theorem registerStep_of_not_ready (w : WindowState) (m : Implementors)
    (h : w.ready = false) :
    registerStep w m = { w with pending_implementors := some m } := by
  simp [registerStep, h]

theorem sinkInit_ready (w : WindowState) : (sinkInit w).ready = true := by
  unfold sinkInit
  cases w.pending_implementors <;> rfl

theorem sinkInit_pending (w : WindowState) :
    (sinkInit w).pending_implementors = none := by
  unfold sinkInit
  cases h : w.pending_implementors with
  | none => rfl
  | some m => rfl

theorem runFrom_append (w : WindowState) (t₁ t₂ : List Event) :
    runFrom w (t₁ ++ t₂) = runFrom (runFrom w t₁) t₂ := by
  simp [runFrom, List.foldl_append]

theorem runFrom_ready_iff (t : List Event) (w : WindowState) :
    (runFrom w t).ready = true ↔ (w.ready = true ∨ Event.init ∈ t) := by
  induction t generalizing w with
  | nil => simp [runFrom]
  | cons e t ih =>
      cases e with
      | reg m =>
          rw [show runFrom w (Event.reg m :: t) = runFrom (registerStep w m) t
                from rfl, ih, registerStep_ready]
          simp [List.mem_cons]
      | init =>
          rw [show runFrom w (Event.init :: t) = runFrom (sinkInit w) t
                from rfl, ih, sinkInit_ready]
          simp

theorem run_ready_iff (t : List Event) :
    (run t).ready = true ↔ Event.init ∈ t := by
  rw [run, runFrom_ready_iff]
  simp [initialState]

theorem runFrom_regs_of_ready (ms : List Implementors) (w : WindowState)
    (h : w.ready = true) :
    runFrom w (ms.map Event.reg) =
      { w with registry := ms.foldl applyMapping w.registry,
               callLog := w.callLog ++ ms } := by
  induction ms generalizing w with
  | nil =>
      apply WindowState.ext <;> simp [runFrom]
  | cons m ms ih =>
      rw [show runFrom w ((m :: ms).map Event.reg)
            = runFrom (registerStep w m) (ms.map Event.reg) from rfl,
          registerStep_of_ready w m h,
          ih { w with registry := applyMapping w.registry m,
                      callLog := w.callLog ++ [m] } h]
      apply WindowState.ext <;> simp

/-! ## Registry lemmas under distinct identifiers -/

theorem insertReg_of_not_mem (reg : Registry) (kv : String × Descriptions)
    (h : kv.1 ∉ reg.map Prod.fst) : insertReg reg kv = reg ++ [kv] := by
  unfold insertReg
  congr 1
  apply List.filter_eq_self.mpr
  intro p hp
  have hne : p.1 ≠ kv.1 := by
    intro hEq
    exact h (hEq ▸ List.mem_map_of_mem Prod.fst hp)
  simpa [bne_iff_ne] using hne

theorem applyMapping_eq_append (m : Implementors) (reg : Registry)
    (hdisj : ∀ k ∈ m.map Prod.fst, k ∉ reg.map Prod.fst)
    (hnd : (m.map Prod.fst).Nodup) :
    applyMapping reg m = reg ++ m := by
  induction m generalizing reg with
  | nil => simp [applyMapping]
  | cons kv m ih =>
      have h1 : kv.1 ∉ reg.map Prod.fst := hdisj kv.1 (by simp)
      have hnd' : (m.map Prod.fst).Nodup := (List.nodup_cons.mp (by simpa using hnd)).2
      have hhd : kv.1 ∉ m.map Prod.fst := (List.nodup_cons.mp (by simpa using hnd)).1
      have hdisj' : ∀ k ∈ m.map Prod.fst, k ∉ (reg ++ [kv]).map Prod.fst := by
        intro k hk
        rw [List.map_append, List.mem_append]
        rintro (hkreg | hkv)
        · exact hdisj k (by simp [hk]) hkreg
        · simp only [List.map_cons, List.map_nil, List.mem_singleton] at hkv
          exact hhd (hkv ▸ hk)
      rw [show applyMapping reg (kv :: m) = applyMapping (insertReg reg kv) m from rfl,
          insertReg_of_not_mem reg kv h1, ih (reg ++ [kv]) hdisj' hnd']
      simp

theorem foldl_applyMapping_eq_flatten (ms : List Implementors) (reg : Registry)
    (hnd : ((reg ++ ms.flatten).map Prod.fst).Nodup) :
    ms.foldl applyMapping reg = reg ++ ms.flatten := by
  induction ms generalizing reg with
  | nil => simp
  | cons m ms ih =>
      have hnd₁ : ((reg ++ (m ++ ms.flatten)).map Prod.fst).Nodup := by
        simpa using hnd
      rw [List.map_append, List.nodup_append] at hnd₁
      obtain ⟨hreg, hrest, hdisjRM⟩ := hnd₁
      rw [List.map_append, List.nodup_append] at hrest
      obtain ⟨hm, hflat, hdisjMF⟩ := hrest
      have h1 : applyMapping reg m = reg ++ m := by
        apply applyMapping_eq_append m reg _ hm
        intro k hk hkreg
        exact hdisjRM hkreg (by rw [List.map_append, List.mem_append]; exact Or.inl hk)
      have hnd₂ : (((reg ++ m) ++ ms.flatten).map Prod.fst).Nodup := by
        rw [List.append_assoc]
        simpa using hnd
      rw [show (m :: ms).foldl applyMapping reg
            = ms.foldl applyMapping (applyMapping reg m) from rfl,
          h1, ih (reg ++ m) hnd₂]
      simp

/-! ## Trace-level pending-slot characterization -/

theorem traceMappings_append (t₁ t₂ : List Event) :
    traceMappings (t₁ ++ t₂) = traceMappings t₁ ++ traceMappings t₂ := by
  simp [traceMappings, List.filterMap_append]

/-- C4: in every reachable state the pending slot holds at most one emitter
mapping — `none` once the Sink has initialized (the drain discards the slot
and later registrations route to the Sink), and otherwise exactly the
mapping of the most recent emitter to run, each assignment replacing the
previous contents. -/
theorem C4_pending_slot_characterization (t : List Event) :
    (run t).pending_implementors =
      if Event.init ∈ t then none else (traceMappings t).getLast? := by
  induction t using List.reverseRecOn with
  | nil => rfl
  | append_singleton t e ih =>
      rw [show run (t ++ [e]) = step (run t) e from by
            simp [run, runFrom, List.foldl_append]]
      cases e with
      | init =>
          rw [show step (run t) Event.init = sinkInit (run t) from rfl,
              sinkInit_pending]
          simp
      | reg m =>
          rw [show step (run t) (Event.reg m) = registerStep (run t) m from rfl]
          cases hr : (run t).ready with
          | true =>
              have hinit : Event.init ∈ t := (run_ready_iff t).mp hr
              have hmem : Event.init ∈ t ++ [Event.reg m] :=
                List.mem_append.mpr (Or.inl hinit)
              rw [registerStep_of_ready _ _ hr]
              show (run t).pending_implementors = _
              rw [ih]
              simp [hinit, hmem]
          | false =>
              have hinit : Event.init ∉ t := by
                intro hmem
                rw [(run_ready_iff t).mpr hmem] at hr
                exact Bool.true_eq_false.mp hr
              rw [registerStep_of_not_ready _ _ hr]
              have : Event.init ∉ t ++ [Event.reg m] := by
                simp [List.mem_append, hinit]
              simp only [this, if_neg, if_false]
              rw [traceMappings_append]
              rw [show traceMappings [Event.reg m] = [m] from rfl,
                  List.getLast?_concat]

/-! ## C1-C3: counterexamples and amended statements -/

/-- C1 (counterexample): with two emitters registering before Sink
initialization (trace regA, regB, init), the final Registry is missing
pkgA: the pending-slot assignment of line 7 overwrote emitter A's mapping,
so the Registry does not contain exactly the two registered Fragments. -/
theorem C1_counterexample :
    (run [Event.reg mA, Event.reg mB, Event.init]).registry = mB ∧
    ("pkgA", ["implA1"]) ∈ mA ∧
    ("pkgA", ["implA1"]) ∉ (run [Event.reg mA, Event.reg mB, Event.init]).registry := by
  decide

/-- C1 (amended): for every interleaving in which at most one emitter
registration precedes Sink initialization, the final Registry holds
exactly the fragments of all registered mappings (identifiers assumed
distinct): it equals their concatenation in registration order. -/
theorem C1_amended_registry_exact (preM postM : List Implementors)
    (hpre : preM.length ≤ 1)
    (hnd : (((preM ++ postM).flatten).map Prod.fst).Nodup) :
    (run (preM.map Event.reg ++ Event.init :: postM.map Event.reg)).registry =
      (preM ++ postM).flatten := by
  rcases preM with _ | ⟨m0, preM'⟩
  · have h1 : run (([] : List Implementors).map Event.reg
        ++ Event.init :: postM.map Event.reg)
        = runFrom readyState (postM.map Event.reg) := rfl
    rw [h1, runFrom_regs_of_ready postM readyState rfl]
    show postM.foldl applyMapping ([] : Registry) = _
    rw [foldl_applyMapping_eq_flatten postM [] (by simpa using hnd)]
    simp
  · rcases preM' with _ | ⟨m1, rest⟩
    · have h1 : run (([m0] : List Implementors).map Event.reg
          ++ Event.init :: postM.map Event.reg)
          = runFrom (sinkInit (registerStep initialState m0))
              (postM.map Event.reg) := rfl
      have hready : (sinkInit (registerStep initialState m0)).ready = true :=
        sinkInit_ready _
      rw [h1, runFrom_regs_of_ready postM _ hready]
      show (m0 :: postM).foldl applyMapping ([] : Registry) = _
      rw [foldl_applyMapping_eq_flatten (m0 :: postM) [] (by simpa using hnd)]
      simp
    · simp at hpre

/-- C1 (witness): the amended statement at pre-init emitter [mA] and
post-init emitters [mB, mC]. -/
theorem C1_amended_registry_exact_witness :
    ([mA] : List Implementors).length ≤ 1 ∧
    ((([mA] ++ [mB, mC]).flatten).map Prod.fst).Nodup ∧
    (run (([mA] : List Implementors).map Event.reg
        ++ Event.init :: ([mB, mC] : List Implementors).map Event.reg)).registry =
      ([mA] ++ [mB, mC]).flatten :=
  ⟨by decide, by decide,
    C1_amended_registry_exact [mA] [mB, mC] (by decide) (by decide)⟩

/-- C2 (counterexample): after emitter A then emitter B both register while
the Sink is absent, the pending slot holds only B's mapping; A's fragment
was not retained alongside the new one, so no buffer accumulates. -/
theorem C2_counterexample :
    (run [Event.reg mA, Event.reg mB]).pending_implementors = some mB ∧
    ("pkgA", ["implA1"]) ∈ mA ∧
    ("pkgA", ["implA1"]) ∉ mB := by
  decide

/-- C2 (amended): a registration made while the Sink entry point is absent
assigns the emitter's mapping to the pending slot, replacing the slot's
previous contents entirely: afterwards the slot holds exactly that mapping. -/
theorem C2_amended_pending_overwrite (w : WindowState) (m : Implementors)
    (h : w.ready = false) :
    (registerStep w m).pending_implementors = some m := by
  rw [registerStep_of_not_ready w m h]

/-- C2 (witness): the amended statement at the initial window and mapping mA. -/
theorem C2_amended_pending_overwrite_witness :
    initialState.ready = false ∧
    (registerStep initialState mA).pending_implementors = some mA :=
  ⟨rfl, C2_amended_pending_overwrite initialState mA rfl⟩

/-- C3 (counterexample): fragments A and B buffered by two distinct
pre-init emitters are not applied in order A then B after initialization:
the Sink is called only with B's mapping and A is absent from the
Registry. -/
theorem C3_counterexample :
    (run [Event.reg mA, Event.reg mB, Event.init]).callLog = [mB] ∧
    ("pkgA", ["implA1"]) ∉ (run [Event.reg mA, Event.reg mB, Event.init]).registry := by
  decide

/-- C3 (amended): drain order is preserved only within the single surviving
buffered mapping: if fragments A and B are registered by one emitter
mapping with A before B (the last emitter to run before initialization),
then after initialization the Sink is called once with that mapping and
the Registry lists its fragments in the same order, A before B. -/
theorem C3_amended_drain_order (m : Implementors)
    (hnd : (m.map Prod.fst).Nodup) :
    (run [Event.reg m, Event.init]).callLog = [m] ∧
    (run [Event.reg m, Event.init]).registry = m := by
  constructor
  · rfl
  · show applyMapping [] m = m
    have h := applyMapping_eq_append m [] (by simp) hnd
    simpa using h

/-- C3 (witness): the amended statement at the two-fragment mapping
mA ++ mB (pkgA before pkgB). -/
theorem C3_amended_drain_order_witness :
    ((mA ++ mB).map Prod.fst).Nodup ∧
    ((run [Event.reg (mA ++ mB), Event.init]).callLog = [mA ++ mB] ∧
     (run [Event.reg (mA ++ mB), Event.init]).registry = mA ++ mB) :=
  ⟨by decide, C3_amended_drain_order (mA ++ mB) (by decide)⟩

/-! ## C5-C8 -/

/-- C5: when the Sink entry point exists, a registration invokes it
synchronously exactly once with the emitter's full mapping (the call log
grows by exactly that one call) and writes nothing to the pending slot. -/
theorem C5_ready_invokes_sink_once (w : WindowState) (m : Implementors)
    (h : w.ready = true) :
    (registerStep w m).callLog = w.callLog ++ [m] ∧
    (registerStep w m).pending_implementors = w.pending_implementors := by
  rw [registerStep_of_ready w m h]
  exact ⟨rfl, rfl⟩

/-- C5 (witness): the statement at a READY window and mapping mA. -/
theorem C5_ready_invokes_sink_once_witness :
    readyState.ready = true ∧
    ((registerStep readyState mA).callLog = readyState.callLog ++ [mA] ∧
     (registerStep readyState mA).pending_implementors
       = readyState.pending_implementors) :=
  ⟨rfl, C5_ready_invokes_sink_once readyState mA rfl⟩

/-- C6: the registration dispatch is total in every process-wide state:
the fallible semantics (where an unguarded call of an absent entry point
would throw) always returns `ok`, agreeing with the total step — no
failure is ever observable by the emitter. -/
theorem C6_registration_total (w : WindowState) (m : Implementors) :
    registerStepE w m = Except.ok (registerStep w m) := by
  unfold registerStepE callSink registerStep
  by_cases h : w.ready = true
  · simp [h]
  · simp [h]

/-- C7: once READY, always READY: a run of any further emitter
registrations keeps the entry point present, never touches the pending
slot, and routes every registration directly to the Sink in order. -/
theorem C7_ready_permanent (w : WindowState) (ms : List Implementors)
    (h : w.ready = true) :
    (runFrom w (ms.map Event.reg)).ready = true ∧
    (runFrom w (ms.map Event.reg)).pending_implementors
      = w.pending_implementors ∧
    (runFrom w (ms.map Event.reg)).callLog = w.callLog ++ ms := by
  rw [runFrom_regs_of_ready ms w h]
  exact ⟨h, rfl, rfl⟩

/-- C7 (witness): the statement at a READY window with two subsequent
emitters. -/
theorem C7_ready_permanent_witness :
    readyState.ready = true ∧
    ((runFrom readyState (([mA, mB] : List Implementors).map Event.reg)).ready = true ∧
     (runFrom readyState (([mA, mB] : List Implementors).map Event.reg)).pending_implementors
       = readyState.pending_implementors ∧
     (runFrom readyState (([mA, mB] : List Implementors).map Event.reg)).callLog
       = readyState.callLog ++ [mA, mB]) :=
  ⟨rfl, C7_ready_permanent readyState [mA, mB] rfl⟩

/-- C8: last write wins: after two READY registrations under the same
identifier, the Registry holds exactly one entry for that identifier and
it carries the later fragment. -/
theorem C8_last_write_wins (w : WindowState) (k : String)
    (v₁ v₂ : Descriptions) (h : w.ready = true) :
    ((registerStep (registerStep w [(k, v₁)]) [(k, v₂)]).registry).filter
        (fun p => p.1 == k) = [(k, v₂)] := by
  have h2 : (registerStep w [(k, v₁)]).ready = true := by
    rw [registerStep_ready]
    exact h
  rw [registerStep_of_ready _ _ h2]
  show ((applyMapping (registerStep w [(k, v₁)]).registry [(k, v₂)]).filter
      (fun p => p.1 == k)) = [(k, v₂)]
  show (((registerStep w [(k, v₁)]).registry.filter (fun p => p.1 != k)
      ++ [(k, v₂)]).filter (fun p => p.1 == k)) = [(k, v₂)]
  rw [List.filter_append, List.filter_filter]
  have hnil : List.filter (fun a => a.1 == k && a.1 != k)
      (registerStep w [(k, v₁)]).registry = [] := by
    apply List.filter_eq_nil_iff.mpr
    intro a _
    simp [bne]
  rw [hnil]
  simp

/-- C8 (witness): the statement at a READY window, identifier pkgA, and
two successive fragments. -/
theorem C8_last_write_wins_witness :
    readyState.ready = true ∧
    ((registerStep (registerStep readyState [("pkgA", ["implA1"])])
        [("pkgA", ["implA2"])]).registry).filter
        (fun p => p.1 == "pkgA") = [("pkgA", ["implA2"])] :=
  ⟨rfl, C8_last_write_wins readyState "pkgA" ["implA1"] ["implA2"] rfl⟩

/-! ## C9: payload noninterference -/

/-- Rewrite every implementor description string of a mapping with `φ`,
leaving identifiers untouched. -/
def mapDescs (φ : String → String) (m : Implementors) : Implementors :=
  m.map (fun kv => (kv.1, kv.2.map φ))

/-- Rewrite every implementor description string stored anywhere in the
window (registry, call log, pending slot) with `φ`. -/
def mapWindowDescs (φ : String → String) (w : WindowState) : WindowState :=
  { w with registry := mapDescs φ w.registry,
           callLog := w.callLog.map (mapDescs φ),
           pending_implementors := w.pending_implementors.map (mapDescs φ) }

theorem mapDescs_insertReg (φ : String → String) (r : Registry)
    (kv : String × Descriptions) :
    mapDescs φ (insertReg r kv)
      = insertReg (mapDescs φ r) (kv.1, kv.2.map φ) := by
  unfold insertReg mapDescs
  rw [List.map_append, List.filter_map]
  rfl

theorem mapDescs_applyMapping (φ : String → String) (m : Implementors)
    (r : Registry) :
    mapDescs φ (applyMapping r m)
      = applyMapping (mapDescs φ r) (mapDescs φ m) := by
  induction m generalizing r with
  | nil => rfl
  | cons kv m ih =>
      show mapDescs φ (applyMapping (insertReg r kv) m)
        = applyMapping (insertReg (mapDescs φ r) (kv.1, kv.2.map φ)) (mapDescs φ m)
      rw [ih (insertReg r kv), mapDescs_insertReg]

/-- C9: the core never inspects the description payloads: rewriting every
description string with an arbitrary `φ` does not change which branch the
dispatch takes (`ready` is unchanged), and the step commutes with the
rewriting — the resulting states differ only in the payload strings. -/
theorem C9_payload_noninterference (φ : String → String) (w : WindowState)
    (m : Implementors) :
    (mapWindowDescs φ w).ready = w.ready ∧
    registerStep (mapWindowDescs φ w) (mapDescs φ m)
      = mapWindowDescs φ (registerStep w m) := by
  refine ⟨rfl, ?_⟩
  by_cases h : w.ready = true
  · rw [registerStep_of_ready w m h,
        registerStep_of_ready (mapWindowDescs φ w) (mapDescs φ m) h]
    apply WindowState.ext <;>
      simp [mapWindowDescs, mapDescs_applyMapping]
  · have h' : w.ready = false := by
      simpa using h
    rw [registerStep_of_not_ready w m h',
        registerStep_of_not_ready (mapWindowDescs φ w) (mapDescs φ m) h']
    apply WindowState.ext <;> simp [mapWindowDescs]

/-! ## C10: frame property -/

/-- C10: a registration step touches nothing beyond its own bindings: the
other window bindings are always untouched and the entry point is never
created or removed; a READY registration leaves the pending slot unchanged
(only the Sink-owned registry and call log move), and an UNINITIALIZED
registration modifies only the pending slot, leaving registry and call log
unchanged. -/
theorem C10_frame_property (w : WindowState) (m : Implementors) :
    (registerStep w m).others = w.others ∧
    (registerStep w m).ready = w.ready ∧
    (w.ready = true →
      (registerStep w m).pending_implementors = w.pending_implementors) ∧
    (w.ready = false →
      (registerStep w m).registry = w.registry ∧
      (registerStep w m).callLog = w.callLog) := by
  refine ⟨registerStep_others w m, registerStep_ready w m, ?_, ?_⟩
  · intro h
    rw [registerStep_of_ready w m h]
  · intro h
    rw [registerStep_of_not_ready w m h]
    exact ⟨rfl, rfl⟩

/-- C10 (witness): the frame property discharged at a READY window and at
the initial (UNINITIALIZED) window. -/
theorem C10_frame_property_witness :
    readyState.ready = true ∧ initialState.ready = false ∧
    (registerStep readyState mA).pending_implementors
      = readyState.pending_implementors ∧
    ((registerStep initialState mA).registry = initialState.registry ∧
     (registerStep initialState mA).callLog = initialState.callLog) :=
  ⟨rfl, rfl, (C10_frame_property readyState mA).2.2.1 rfl,
    (C10_frame_property initialState mA).2.2.2 rfl⟩
